import Mathlib

/-!
Verification of the absalom-face knowledge-engine core against its
natural-language specification.

The development shallowly embeds the JavaScript sources:

* `knowledge-engine` decay module (`getHalfLife`, `getSourceWeight`,
  `calculateDecayFactor`, `applyDecay`, `applyDecayToGraph`,
  `estimateDecayTime`);
* `knowledge-engine` graph store (`KnowledgeGraph.addNode`, `addEdge`,
  `buildGraph`'s paragraph loop);
* `knowledge-engine` extractor (`normalize`, `extractEntities` guard,
  paragraph machinery);
* `scripts/knowledge-to-city.js` entity extraction (ticker rule) and
  `generateBuildings`;
* the file watcher's content-hash dedup (`hasActuallyChanged`,
  `processFileChange`).

JavaScript numbers are modelled as real numbers (`ℝ`) where the code does
transcendental arithmetic (exponential decay), and as exact rationals or
naturals where the code only counts.  Strings are Lean `String`s; character
level regex work happens on `List Char`.  `Date.now()` is modelled as an
explicit argument wherever the source reads the clock.
-/

namespace AbsalomFace

/-! ### Generic association-list helpers

The JavaScript `Map` objects (`graph.nodes`, `graph.edges`,
`watcher.fileHashes`) are modelled as insertion-ordered association lists:
`Map.set` on an existing key updates in place, otherwise appends.
-/

/-- Update the value stored at key `k` in place (no-op on other keys). -/
def updAssoc : List (String × β) → String → (β → β) → List (String × β)
  | [], _, _ => []
  | (a, b) :: m, k, f =>
      (if a = k then (a, f b) else (a, b)) :: updAssoc m k f

/-- JavaScript `Map.set`: update in place when the key exists, else append. -/
def setAssoc (m : List (String × β)) (k : String) (v : β) : List (String × β) :=
  if (m.lookup k).isSome then updAssoc m k (fun _ => v) else m ++ [(k, v)]

@[simp] theorem lookup_cons (k a : String) (b : β) (m : List (String × β)) :
    List.lookup k ((a, b) :: m) = if k = a then some b else List.lookup k m := by
  by_cases h : k = a
  · simp [List.lookup, h]
  · simp [List.lookup, h, beq_eq_false_iff_ne.mpr h]

@[simp] theorem lookup_updAssoc (m : List (String × β)) (k k' : String) (f : β → β) :
    (updAssoc m k f).lookup k' = if k' = k then (m.lookup k').map f else m.lookup k' := by
  induction m with
  | nil => simp [updAssoc]
  | cons p m ih =>
    obtain ⟨a, b⟩ := p
    by_cases hak : a = k
    · subst hak
      by_cases hk' : k' = a
      · subst hk'
        simp [updAssoc, ih]
      · simp [updAssoc, hk', ih]
    · by_cases hk' : k' = a
      · subst hk'
        have hne : k' ≠ k := hak
        simp [updAssoc, hak, hne]
      · simp [updAssoc, hak, hk', ih]

theorem lookup_append (l₁ l₂ : List (String × β)) (k : String) :
    (l₁ ++ l₂).lookup k = ((l₁.lookup k).or (l₂.lookup k)) := by
  induction l₁ with
  | nil => simp [List.lookup]
  | cons p l ih =>
    obtain ⟨a, b⟩ := p
    by_cases h : k = a
    · simp [h]
    · simp [h, ih]

theorem lookup_eq_none_of_not_mem_keys (m : List (String × β)) (k : String)
    (h : k ∉ m.map Prod.fst) : m.lookup k = none := by
  induction m with
  | nil => simp [List.lookup]
  | cons p m ih =>
    obtain ⟨a, b⟩ := p
    rw [List.map_cons] at h
    simp only [List.mem_cons, not_or] at h
    simp [h.1, ih h.2]

theorem mem_keys_of_lookup_isSome (m : List (String × β)) (k : String)
    (h : (m.lookup k).isSome) : k ∈ m.map Prod.fst := by
  by_contra hk
  rw [lookup_eq_none_of_not_mem_keys m k hk] at h
  simp at h

@[simp] theorem lookup_setAssoc_self (m : List (String × β)) (k : String) (v : β) :
    (setAssoc m k v).lookup k = some v := by
  rw [setAssoc]
  by_cases h : (m.lookup k).isSome
  · rw [if_pos h, lookup_updAssoc, if_pos rfl]
    rcases Option.isSome_iff_exists.mp h with ⟨w, hw⟩
    simp [hw]
  · rw [if_neg h, lookup_append]
    have hnone : m.lookup k = none := by
      cases hm : m.lookup k with
      | none => rfl
      | some w => exact absurd (by simp [hm]) h
    simp [hnone, List.lookup]

/-! ### Separator-injectivity for joined id strings

`KnowledgeGraph.addEdge` keys edges by `[a, b].sort().join('↔')` and the
extractor keys nodes by `` `${type}:${normalize(label)}` ``; both are
injective as long as the separator character does not occur in the joined
components.
-/

theorem append_sep_inj {c : Char} (p₁ q₁ p₂ q₂ : List Char)
    (hq₁ : c ∉ q₁) (hq₂ : c ∉ q₂)
    (h : p₁ ++ c :: q₁ = p₂ ++ c :: q₂) : p₁ = p₂ ∧ q₁ = q₂ := by
  induction p₁ generalizing p₂ with
  | nil =>
    cases p₂ with
    | nil => simpa using h
    | cons d p₂' =>
      exfalso
      apply hq₁
      simp only [List.nil_append, List.cons_append, List.cons.injEq] at h
      rw [h.2]
      exact List.mem_append_right p₂' (List.mem_cons_self c q₂)
  | cons a p₁' ih =>
    cases p₂ with
    | nil =>
      exfalso
      apply hq₂
      simp only [List.nil_append, List.cons_append, List.cons.injEq] at h
      rw [← h.2]
      exact List.mem_append_right p₁' (List.mem_cons_self c q₁)
    | cons d p₂' =>
      simp only [List.cons_append, List.cons.injEq] at h
      obtain ⟨rfl, h2⟩ := h
      obtain ⟨h3, h4⟩ := ih p₂' h2
      exact ⟨by rw [h3], h4⟩

theorem append_sep_inj_left {c : Char} (p₁ q₁ p₂ q₂ : List Char)
    (hp₁ : c ∉ p₁) (hp₂ : c ∉ p₂)
    (h : p₁ ++ c :: q₁ = p₂ ++ c :: q₂) : p₁ = p₂ ∧ q₁ = q₂ := by
  induction p₁ generalizing p₂ with
  | nil =>
    cases p₂ with
    | nil => simpa using h
    | cons d p₂' =>
      simp only [List.nil_append, List.cons_append, List.cons.injEq] at h
      exact absurd (h.1 ▸ List.mem_cons_self d p₂') hp₂
  | cons a p₁' ih =>
    cases p₂ with
    | nil =>
      simp only [List.nil_append, List.cons_append, List.cons.injEq] at h
      exact absurd (h.1 ▸ List.mem_cons_self a p₁') hp₁
    | cons d p₂' =>
      simp only [List.cons_append, List.cons.injEq] at h
      obtain ⟨rfl, h2⟩ := h
      have hp₁' : c ∉ p₁' := fun hc => hp₁ (List.mem_cons_of_mem _ hc)
      have hp₂' : c ∉ p₂' := fun hc => hp₂ (List.mem_cons_of_mem _ hc)
      obtain ⟨h3, h4⟩ := ih p₂' hp₁' hp₂' h2
      exact ⟨by rw [h3], h4⟩

/-! ### Decay module (knowledge-engine `decay.js`)

Timestamps, ages and weights are modelled as real numbers.  `Date.now()`
is an explicit `now` argument (the source takes `now = Date.now()` as a
default parameter, except in `estimateDecayTime`, where the clock read is
modelled by the explicit `dateNow` argument).
-/

/-- A knowledge-graph node (graph.js `GraphNode`).  The JavaScript `type`
field is called `ntype` (`type` is a Lean keyword); the `Set` of sources is
an insertion-ordered duplicate-free list. -/
structure GNode where
  id : String
  label : String
  ntype : String
  weight : ℝ
  firstSeen : ℝ
  lastSeen : ℝ
  sources : List String

/-- A knowledge-graph edge (graph.js `GraphEdge`). -/
structure GEdge where
  id : String
  source : String
  target : String
  weight : ℝ
  lastSeen : ℝ

noncomputable section Decay

/-- One day in milliseconds. -/
def dayMs : ℝ := 24 * 60 * 60 * 1000

/-- `getHalfLife`: the `HALF_LIVES` table with fallback `HALF_LIVES.default`. -/
def getHalfLife (t : String) : ℝ :=
  if t = "topic" then 30 * dayMs
  else if t = "person" then 60 * dayMs
  else if t = "organization" then 45 * dayMs
  else if t = "ticker" then 7 * dayMs
  else if t = "tool" then 90 * dayMs
  else if t = "url" then 14 * dayMs
  else if t = "header" then 30 * dayMs
  else if t = "decision" then 60 * dayMs
  else 30 * dayMs

theorem getHalfLife_pos (t : String) : 0 < getHalfLife t := by
  unfold getHalfLife
  split_ifs <;> norm_num [dayMs]

/-- The `SOURCE_WEIGHTS` pattern table, in declaration order. -/
def SOURCE_WEIGHTS : List (String × ℝ) :=
  [("SOUL.md", 5), ("MEMORY.md", 3), ("USER.md", 3),
   ("AGENTS.md", 2), ("TOOLS.md", 2), ("memory/", 1)]

/-- `getSourceWeight`: first pattern contained in the filepath wins, default 1.0.
The guard models the JavaScript falsy check `if (!filepath) return 1.0`. -/
def getSourceWeight (filepath : String) : ℝ :=
  if filepath = "" then 1
  else
    match SOURCE_WEIGHTS.find? (fun p => decide (p.1.data <:+: filepath.data)) with
    | some p => p.2
    | none => 1

theorem getSourceWeight_ge_one (filepath : String) : 1 ≤ getSourceWeight filepath := by
  unfold getSourceWeight
  split_ifs
  · exact le_refl 1
  · cases hf : SOURCE_WEIGHTS.find? (fun p => decide (p.1.data <:+: filepath.data)) with
    | none => simp
    | some p =>
      have hp := List.mem_of_find?_eq_some hf
      simp only
      fin_cases hp <;> norm_num

/-- `calculateDecayFactor(age, halfLife)`: `0.5^(age/halfLife)`, clamped to 1
for non-positive age, 0 for non-positive half-life. -/
def calculateDecayFactor (age halfLife : ℝ) : ℝ :=
  if age ≤ 0 then 1
  else if halfLife ≤ 0 then 0
  else (0.5 : ℝ) ^ (age / halfLife)

theorem calculateDecayFactor_nonneg (age halfLife : ℝ) :
    0 ≤ calculateDecayFactor age halfLife := by
  unfold calculateDecayFactor
  split_ifs
  · norm_num
  · exact le_refl 0
  · exact Real.rpow_nonneg (by norm_num) _

theorem calculateDecayFactor_le_one (age halfLife : ℝ) :
    calculateDecayFactor age halfLife ≤ 1 := by
  unfold calculateDecayFactor
  split_ifs with h1 h2
  · exact le_refl 1
  · norm_num
  · exact Real.rpow_le_one (by norm_num) (by norm_num)
      (le_of_lt (div_pos (lt_of_not_le h1) (lt_of_not_le h2)))

theorem calculateDecayFactor_antitone (halfLife : ℝ) {a₁ a₂ : ℝ} (h : a₁ ≤ a₂) :
    calculateDecayFactor a₂ halfLife ≤ calculateDecayFactor a₁ halfLife := by
  unfold calculateDecayFactor
  by_cases h1 : a₁ ≤ 0
  · rw [if_pos h1]
    split_ifs with h2 h3
    · exact le_refl 1
    · norm_num
    · exact Real.rpow_le_one (by norm_num) (by norm_num)
        (le_of_lt (div_pos (lt_of_not_le h2) (lt_of_not_le h3)))
  · have h2 : ¬ a₂ ≤ 0 := fun hc => h1 (le_trans h hc)
    rw [if_neg h1, if_neg h2]
    by_cases hH : halfLife ≤ 0
    · rw [if_pos hH, if_pos hH]
    · rw [if_neg hH, if_neg hH]
      exact Real.rpow_le_rpow_of_exponent_ge (by norm_num) (by norm_num)
        ((div_le_div_iff_of_pos_right (lt_of_not_le hH)).mpr h)

/-- Output of `applyDecay`: the node plus the derived display fields. -/
structure DecayedNode extends GNode where
  displayWeight : ℝ
  decayFactor : ℝ
  sourceBonus : ℝ
  age : ℝ

/-- Output of the edge branch of `applyDecayToGraph`. -/
structure DecayedEdge extends GEdge where
  displayWeight : ℝ
  decayFactor : ℝ
  age : ℝ

/-- `applyDecay(node, now)`: display weight = weight × decay × source bonus,
where the source bonus is the running max of `getSourceWeight` over the
node's sources, started at 1.0. -/
def applyDecay (node : GNode) (now : ℝ) : DecayedNode :=
  let halfLife := getHalfLife node.ntype
  let age := now - node.lastSeen
  let decayFactor := calculateDecayFactor age halfLife
  let sourceBonus := node.sources.foldl (fun acc s => max acc (getSourceWeight s)) 1
  let displayWeight := node.weight * decayFactor * sourceBonus
  { toGNode := node, displayWeight := displayWeight, decayFactor := decayFactor,
    sourceBonus := sourceBonus, age := age }

/-- The edge branch of `applyDecayToGraph`: edge decay uses
`HALF_LIVES.default` (30 days) and no source bonus. -/
def decayEdge (edge : GEdge) (now : ℝ) : DecayedEdge :=
  let age := now - edge.lastSeen
  let decayFactor := calculateDecayFactor age (30 * dayMs)
  { toGEdge := edge, displayWeight := edge.weight * decayFactor,
    decayFactor := decayFactor, age := age }

/-- A graph before decay: the `nodes`/`edges` arrays handed to
`applyDecayToGraph`. -/
structure PlainGraph where
  nodes : List GNode
  edges : List GEdge

/-- A graph after decay. -/
structure DecayedGraph where
  nodes : List DecayedNode
  edges : List DecayedEdge
  decayedAt : ℝ

/-- `applyDecayToGraph(graph, now)`. -/
def applyDecayToGraph (graph : PlainGraph) (now : ℝ) : DecayedGraph :=
  { nodes := graph.nodes.map (fun node => applyDecay node now),
    edges := graph.edges.map (fun edge => decayEdge edge now),
    decayedAt := now }

/-- Argument view for `estimateDecayTime`.  `displayWeight` may be absent
(JavaScript `undefined`), and `node.displayWeight || node.weight` also falls
back to `weight` when `displayWeight` is `0`, since `0` is falsy. -/
structure WNode where
  ntype : String
  weight : ℝ
  displayWeight : Option ℝ

/-- JavaScript `node.displayWeight || node.weight`. -/
def currentWeightOf (node : WNode) : ℝ :=
  match node.displayWeight with
  | some w => if w = 0 then node.weight else w
  | none => node.weight

/-- `estimateDecayTime(node, threshold)`.  The source reads the wall clock
(`return Date.now() + timeRemaining`); that clock read is modelled by the
explicit `dateNow` argument, so the dependence is visible in the type. -/
def estimateDecayTime (node : WNode) (threshold : ℝ) (dateNow : ℝ) : Option ℝ :=
  let currentWeight := currentWeightOf node
  if currentWeight ≤ threshold then none
  else
    let halfLife := getHalfLife node.ntype
    let decaysNeeded := Real.logb 2 (currentWeight / threshold)
    let timeRemaining := decaysNeeded * halfLife
    some (dateNow + timeRemaining)

/-! #### Facts about the decay formula -/

theorem calculateDecayFactor_eq_rpow (age : ℝ) {H : ℝ} (hH : 0 < H) :
    calculateDecayFactor age H = (0.5 : ℝ) ^ (max age 0 / H) := by
  unfold calculateDecayFactor
  by_cases h : age ≤ 0
  · rw [if_pos h, max_eq_right h, zero_div, Real.rpow_zero]
  · rw [if_neg h, if_neg (not_le.mpr hH), max_eq_left (le_of_lt (lt_of_not_le h))]

theorem le_foldl_max (l : List ℝ) (a : ℝ) : a ≤ l.foldl max a := by
  induction l generalizing a with
  | nil => exact le_refl a
  | cons x xs ih => exact le_trans (le_max_left a x) (ih (max a x))

theorem foldl_max_const_one (f : String → ℝ) :
    ∀ (l : List String), (∀ s ∈ l, f s = 1) →
      l.foldl (fun acc s => max acc (f s)) 1 = 1
  | [], _ => rfl
  | x :: xs, h => by
      have hx : f x = 1 := h x (List.mem_cons_self x xs)
      simp only [List.foldl_cons, hx, max_self]
      exact foldl_max_const_one f xs (fun s hs => h s (List.mem_cons_of_mem x hs))

theorem sourceBonus_ge_one (sources : List String) :
    1 ≤ sources.foldl (fun acc s => max acc (getSourceWeight s)) 1 := by
  rw [← List.foldl_map (f := getSourceWeight) (g := max)]
  exact le_foldl_max _ 1

theorem applyDecay_displayWeight_nonneg (node : GNode) (hw : 0 ≤ node.weight)
    (now : ℝ) : 0 ≤ (applyDecay node now).displayWeight := by
  have hb : (0 : ℝ) ≤ node.sources.foldl (fun acc s => max acc (getSourceWeight s)) 1 :=
    le_trans zero_le_one (sourceBonus_ge_one node.sources)
  exact mul_nonneg (mul_nonneg hw (calculateDecayFactor_nonneg _ _)) hb

theorem applyDecay_displayWeight_antitone (node : GNode) (hw : 0 ≤ node.weight)
    {now₁ now₂ : ℝ} (h12 : now₁ ≤ now₂) :
    (applyDecay node now₂).displayWeight ≤ (applyDecay node now₁).displayWeight := by
  have hb : (0 : ℝ) ≤ node.sources.foldl (fun acc s => max acc (getSourceWeight s)) 1 :=
    le_trans zero_le_one (sourceBonus_ge_one node.sources)
  have hd : calculateDecayFactor (now₂ - node.lastSeen) (getHalfLife node.ntype)
      ≤ calculateDecayFactor (now₁ - node.lastSeen) (getHalfLife node.ntype) :=
    calculateDecayFactor_antitone _ (sub_le_sub_right h12 _)
  exact mul_le_mul_of_nonneg_right (mul_le_mul_of_nonneg_left hd hw) hb

theorem decayEdge_displayWeight_nonneg (edge : GEdge) (hw : 0 ≤ edge.weight)
    (now : ℝ) : 0 ≤ (decayEdge edge now).displayWeight :=
  mul_nonneg hw (calculateDecayFactor_nonneg _ _)

theorem decayEdge_displayWeight_antitone (edge : GEdge) (hw : 0 ≤ edge.weight)
    {now₁ now₂ : ℝ} (h12 : now₁ ≤ now₂) :
    (decayEdge edge now₂).displayWeight ≤ (decayEdge edge now₁).displayWeight :=
  mul_le_mul_of_nonneg_left
    (calculateDecayFactor_antitone _ (sub_le_sub_right h12 _)) hw

/-- Claim C1: `applyDecay(node, now)` produces
`displayWeight = weight × 0.5^((now − lastSeen)/H(type)) × max source_weight`,
with the age clamped to ≥ 0 so the decay factor is exactly 1 when
`now ≤ lastSeen`, and with source bonus 1 when no source matches a pattern. -/
theorem applyDecay_display_weight_formula (node : GNode) (now : ℝ) :
    (applyDecay node now).displayWeight
        = node.weight
          * (0.5 : ℝ) ^ (max (now - node.lastSeen) 0 / getHalfLife node.ntype)
          * ((node.sources.map getSourceWeight).foldl max 1)
      ∧ (now ≤ node.lastSeen → (applyDecay node now).decayFactor = 1)
      ∧ ((∀ s ∈ node.sources, getSourceWeight s = 1) →
          (applyDecay node now).sourceBonus = 1) := by
  refine ⟨?_, ?_, ?_⟩
  · show node.weight * calculateDecayFactor (now - node.lastSeen) (getHalfLife node.ntype)
        * (node.sources.foldl (fun acc s => max acc (getSourceWeight s)) 1) = _
    rw [calculateDecayFactor_eq_rpow _ (getHalfLife_pos node.ntype),
      ← List.foldl_map (f := getSourceWeight) (g := max)]
  · intro h
    show calculateDecayFactor (now - node.lastSeen) (getHalfLife node.ntype) = 1
    unfold calculateDecayFactor
    rw [if_pos (sub_nonpos.mpr h)]
  · intro h
    show node.sources.foldl (fun acc s => max acc (getSourceWeight s)) 1 = 1
    exact foldl_max_const_one getSourceWeight node.sources h

/-- Claim C2: for a fixed graph with non-negative mention counts, every
display weight produced by `applyDecayToGraph` is non-negative, and
advancing `now` never increases any node's or edge's display weight. -/
theorem applyDecayToGraph_monotone (graph : PlainGraph)
    (hn : ∀ node ∈ graph.nodes, 0 ≤ node.weight)
    (he : ∀ edge ∈ graph.edges, 0 ≤ edge.weight)
    (now₁ now₂ : ℝ) (h12 : now₁ ≤ now₂) :
    (∀ now, ∀ dn ∈ (applyDecayToGraph graph now).nodes, 0 ≤ dn.displayWeight)
    ∧ (∀ now, ∀ de ∈ (applyDecayToGraph graph now).edges, 0 ≤ de.displayWeight)
    ∧ (∀ (i : ℕ) (dn₁ dn₂ : DecayedNode), (applyDecayToGraph graph now₁).nodes[i]? = some dn₁ →
        (applyDecayToGraph graph now₂).nodes[i]? = some dn₂ →
        dn₂.displayWeight ≤ dn₁.displayWeight)
    ∧ (∀ (i : ℕ) (de₁ de₂ : DecayedEdge), (applyDecayToGraph graph now₁).edges[i]? = some de₁ →
        (applyDecayToGraph graph now₂).edges[i]? = some de₂ →
        de₂.displayWeight ≤ de₁.displayWeight) := by
  refine ⟨?_, ?_, ?_, ?_⟩
  · intro now dn hdn
    simp only [applyDecayToGraph, List.mem_map] at hdn
    obtain ⟨node, hmem, rfl⟩ := hdn
    exact applyDecay_displayWeight_nonneg node (hn node hmem) now
  · intro now de hde
    simp only [applyDecayToGraph, List.mem_map] at hde
    obtain ⟨edge, hmem, rfl⟩ := hde
    exact decayEdge_displayWeight_nonneg edge (he edge hmem) now
  · intro i dn₁ dn₂ h1 h2
    simp only [applyDecayToGraph, List.getElem?_map, Option.map_eq_some'] at h1 h2
    obtain ⟨node, hget, rfl⟩ := h1
    obtain ⟨node', hget', rfl⟩ := h2
    rw [hget] at hget'
    cases hget'
    exact applyDecay_displayWeight_antitone node
      (hn node (List.getElem?_mem hget)) h12
  · intro i de₁ de₂ h1 h2
    simp only [applyDecayToGraph, List.getElem?_map, Option.map_eq_some'] at h1 h2
    obtain ⟨edge, hget, rfl⟩ := h1
    obtain ⟨edge', hget', rfl⟩ := h2
    rw [hget] at hget'
    cases hget'
    exact decayEdge_displayWeight_antitone edge
      (he edge (List.getElem?_mem hget)) h12

/-- A concrete node last seen at time 100, used to exercise `applyDecay`. -/
def c1Node : GNode :=
  { id := "topic:test", label := "Test", ntype := "topic", weight := 2,
    firstSeen := 100, lastSeen := 100, sources := ["memory/notes.md"] }

/-- Witness for C1 at `c1Node` and `now = 50 ≤ lastSeen`: formula holds and
the decay factor is clamped to 1. -/
theorem applyDecay_display_weight_formula_witness :
    (applyDecay c1Node 50).displayWeight
        = c1Node.weight
          * (0.5 : ℝ) ^ (max ((50 : ℝ) - c1Node.lastSeen) 0 / getHalfLife c1Node.ntype)
          * ((c1Node.sources.map getSourceWeight).foldl max 1)
    ∧ (applyDecay c1Node 50).decayFactor = 1 :=
  ⟨(applyDecay_display_weight_formula c1Node 50).1,
   (applyDecay_display_weight_formula c1Node 50).2.1 (by norm_num [c1Node])⟩

/-- A one-node, one-edge graph used to exercise `applyDecayToGraph`. -/
def witnessGraph : PlainGraph :=
  { nodes := [{ id := "topic:test", label := "Test", ntype := "topic",
                weight := 2, firstSeen := 100, lastSeen := 100,
                sources := ["MEMORY.md"] }],
    edges := [{ id := "a↔b", source := "a", target := "b",
                weight := 1, lastSeen := 100 }] }

/-- Witness for C2 at a concrete graph and concrete times 50 ≤ 80. -/
theorem applyDecayToGraph_monotone_witness :
    (∀ now, ∀ dn ∈ (applyDecayToGraph witnessGraph now).nodes, 0 ≤ dn.displayWeight)
    ∧ (∀ now, ∀ de ∈ (applyDecayToGraph witnessGraph now).edges, 0 ≤ de.displayWeight)
    ∧ (∀ (i : ℕ) (dn₁ dn₂ : DecayedNode), (applyDecayToGraph witnessGraph 50).nodes[i]? = some dn₁ →
        (applyDecayToGraph witnessGraph 80).nodes[i]? = some dn₂ →
        dn₂.displayWeight ≤ dn₁.displayWeight)
    ∧ (∀ (i : ℕ) (de₁ de₂ : DecayedEdge), (applyDecayToGraph witnessGraph 50).edges[i]? = some de₁ →
        (applyDecayToGraph witnessGraph 80).edges[i]? = some de₂ →
        de₂.displayWeight ≤ de₁.displayWeight) :=
  applyDecayToGraph_monotone witnessGraph
    (by
      intro node hmem
      simp only [witnessGraph, List.mem_singleton] at hmem
      subst hmem
      norm_num)
    (by
      intro edge hmem
      simp only [witnessGraph, List.mem_singleton] at hmem
      subst hmem
      norm_num)
    50 80 (by norm_num)

/-- Claim C7 (code behaviour at the failing input): `estimateDecayTime`
reads the global clock — `return Date.now() + timeRemaining` — so two calls
with identical node and threshold arguments but different clock readings
return different results, contradicting the spec's purity requirement. -/
theorem estimateDecayTime_depends_on_clock :
    estimateDecayTime { ntype := "topic", weight := 1, displayWeight := some 1 }
        (1/10) 1000
      ≠ estimateDecayTime { ntype := "topic", weight := 1, displayWeight := some 1 }
        (1/10) 2000 := by
  unfold estimateDecayTime currentWeightOf
  norm_num

end Decay

/-! ### Graph store (knowledge-engine `graph.js`)

`KnowledgeGraph` holds two insertion-ordered maps.  `Date.now()` inside
`addNode`/`addEdge` is an explicit `now` argument.
-/

/-- The `KnowledgeGraph` container. -/
structure KGraph where
  nodes : List (String × GNode)
  edges : List (String × GEdge)

def emptyKGraph : KGraph := { nodes := [], edges := [] }

/-- `addEdge`'s canonical edge id: `[sourceId, targetId].sort().join('↔')`. -/
def edgeId (sourceId targetId : String) : String :=
  if sourceId ≤ targetId then sourceId ++ "↔" ++ targetId
  else targetId ++ "↔" ++ sourceId

/-- `KnowledgeGraph.addNode(id, label, type, source)`: bump an existing
node's count, refresh `lastSeen`, add the source; otherwise create it. -/
noncomputable def addNode (g : KGraph) (id label ntype source : String) (now : ℝ) :
    KGraph :=
  if (g.nodes.lookup id).isSome then
    { g with nodes := updAssoc g.nodes id (fun node =>
        { node with
          weight := node.weight + 1
          lastSeen := now
          sources := if node.sources.contains source then node.sources
                     else node.sources ++ [source] }) }
  else
    { g with nodes := g.nodes ++ [(id,
        { id := id, label := label, ntype := ntype, weight := 1,
          firstSeen := now, lastSeen := now, sources := [source] })] }

/-- `KnowledgeGraph.addEdge(sourceId, targetId)`. -/
noncomputable def addEdge (g : KGraph) (sourceId targetId : String) (now : ℝ) :
    KGraph :=
  let eid := edgeId sourceId targetId
  if (g.edges.lookup eid).isSome then
    { g with edges := updAssoc g.edges eid (fun edge =>
        { edge with weight := edge.weight + 1, lastSeen := now }) }
  else
    { g with edges := g.edges ++ [(eid,
        { id := eid, source := sourceId, target := targetId,
          weight := 1, lastSeen := now })] }

/-- One extracted occurrence inside a paragraph, as consumed by
`buildGraph`'s per-paragraph loop: `id = type:normalize(label)`.  The
per-paragraph entity lists themselves come from `extractByParagraph`, whose
NLP pass is an external library, so `buildGraph` is verified for every
possible extraction output. -/
structure EntityOcc where
  id : String
  label : String
  ntype : String

/-- All index-ordered pairs `(ids[i], ids[j])`, `i < j` — the double loop in
`buildGraph` that creates co-occurrence edges. -/
def pairsOf : List String → List (String × String)
  | [] => []
  | x :: xs => xs.map (fun y => (x, y)) ++ pairsOf xs

/-- The body of `buildGraph`'s `for (const para of paragraphs)` loop:
add a node per occurrence, then an edge per unordered pair. -/
noncomputable def processParagraph (g : KGraph) (occs : List EntityOcc)
    (source : String) (now : ℝ) : KGraph :=
  let g1 := occs.foldl (fun g o => addNode g o.id o.label o.ntype source now) g
  (pairsOf (occs.map (fun o => o.id))).foldl (fun g p => addEdge g p.1 p.2 now) g1

/-- `buildGraph` restricted to its graph-mutation part, over the extracted
paragraph groups. -/
noncomputable def buildGraphOccs (paras : List (List EntityOcc))
    (source : String) (now : ℝ) (g : KGraph) : KGraph :=
  paras.foldl (fun g para => processParagraph g para source now) g

/-- The co-occurrence weight stored for key `k` (0 when the key is absent). -/
noncomputable def edgeWeightOf (g : KGraph) (k : String) : ℝ :=
  match g.edges.lookup k with
  | some e => e.weight
  | none => 0

/-- `'↔' does not occur in the string` — true of every node id the extractor
produces, and exactly what makes `edgeId` injective on unordered pairs. -/
def sepFree (s : String) : Prop := '↔' ∉ s.data

instance (s : String) : Decidable (sepFree s) :=
  inferInstanceAs (Decidable ('↔' ∉ s.data))

theorem data_join_sep (u v : String) :
    (u ++ "↔" ++ v).data = u.data ++ '↔' :: v.data := by
  have h1 : (u ++ "↔" ++ v).data = (u.data ++ ("↔" : String).data) ++ v.data := by
    rw [String.data_append, String.data_append]
  have h2 : ("↔" : String).data = ['↔'] := rfl
  rw [h1, h2, List.append_assoc]
  rfl

theorem join_sep_inj {u v u' v' : String}
    (hu : sepFree u) (hu' : sepFree u') (_hv : sepFree v) (_hv' : sepFree v')
    (h : u ++ "↔" ++ v = u' ++ "↔" ++ v') : u = u' ∧ v = v' := by
  have hd : u.data ++ '↔' :: v.data = u'.data ++ '↔' :: v'.data := by
    rw [← data_join_sep, ← data_join_sep, h]
  obtain ⟨h1, h2⟩ := append_sep_inj_left u.data v.data u'.data v'.data hu hu' hd
  exact ⟨String.ext h1, String.ext h2⟩

theorem edgeId_comm (s t : String) : edgeId s t = edgeId t s := by
  unfold edgeId
  by_cases h1 : s ≤ t
  · by_cases h2 : t ≤ s
    · rw [le_antisymm h1 h2]
    · rw [if_pos h1, if_neg h2]
  · have h2 : t ≤ s := (le_total s t).resolve_left h1
    by_cases h2' : t ≤ s
    · rw [if_neg h1, if_pos h2']
    · exact absurd h2 h2'

theorem edgeId_eq_iff {w x y z : String}
    (hw : sepFree w) (hx : sepFree x) (hy : sepFree y) (hz : sepFree z) :
    edgeId w x = edgeId y z ↔ ((w = y ∧ x = z) ∨ (w = z ∧ x = y)) := by
  constructor
  · intro h
    unfold edgeId at h
    by_cases h1 : w ≤ x <;> by_cases h2 : y ≤ z
    · rw [if_pos h1, if_pos h2] at h
      exact Or.inl (join_sep_inj hw hy hx hz h)
    · rw [if_pos h1, if_neg h2] at h
      obtain ⟨ha, hb⟩ := join_sep_inj hw hz hx hy h
      exact Or.inr ⟨ha, hb⟩
    · rw [if_neg h1, if_pos h2] at h
      obtain ⟨ha, hb⟩ := join_sep_inj hx hy hw hz h
      exact Or.inr ⟨hb, ha⟩
    · rw [if_neg h1, if_neg h2] at h
      obtain ⟨ha, hb⟩ := join_sep_inj hx hz hw hy h
      exact Or.inl ⟨hb, ha⟩
  · rintro (⟨rfl, rfl⟩ | ⟨rfl, rfl⟩)
    · rfl
    · exact edgeId_comm w x

/-! #### Edge-weight bookkeeping through `buildGraph` -/

theorem addNode_edges (g : KGraph) (id label ntype source : String) (now : ℝ) :
    (addNode g id label ntype source now).edges = g.edges := by
  unfold addNode
  split_ifs <;> rfl

theorem edgeWeightOf_addEdge (g : KGraph) (s t k : String) (now : ℝ) :
    edgeWeightOf (addEdge g s t now) k
      = edgeWeightOf g k + (if edgeId s t = k then 1 else 0) := by
  by_cases hs : (g.edges.lookup (edgeId s t)).isSome
  · rw [addEdge, if_pos hs]
    unfold edgeWeightOf
    simp only
    rw [lookup_updAssoc]
    by_cases hk : k = edgeId s t
    · subst hk
      rcases Option.isSome_iff_exists.mp hs with ⟨e, he⟩
      rw [if_pos rfl, he, if_pos rfl]
      simp
    · rw [if_neg hk, if_neg (fun hc => hk hc.symm), add_zero]
  · rw [addEdge, if_neg hs]
    unfold edgeWeightOf
    simp only
    rw [lookup_append]
    have hnone : g.edges.lookup (edgeId s t) = none :=
      Option.not_isSome_iff_eq_none.mp hs
    by_cases hk : k = edgeId s t
    · subst hk
      rw [hnone, if_pos rfl]
      simp
    · have hk1 : List.lookup k [(edgeId s t,
          ({ id := edgeId s t, source := s, target := t,
             weight := 1, lastSeen := now } : GEdge))] = none := by
        simp [hk, List.lookup, beq_eq_false_iff_ne.mpr hk]
      rw [hk1, Option.or_none, if_neg (fun hc => hk hc.symm), add_zero]

theorem edgeWeightOf_foldl_addEdge (ps : List (String × String)) (g : KGraph)
    (k : String) (now : ℝ) :
    edgeWeightOf (ps.foldl (fun g p => addEdge g p.1 p.2 now) g) k
      = edgeWeightOf g k
        + ((ps.countP (fun p => decide (edgeId p.1 p.2 = k)) : ℕ) : ℝ) := by
  induction ps generalizing g with
  | nil => simp
  | cons p ps ih =>
    rw [List.foldl_cons, ih, edgeWeightOf_addEdge, List.countP_cons]
    by_cases hp : edgeId p.1 p.2 = k
    · rw [if_pos hp, if_pos (by simp [hp])]
      push_cast
      ring
    · rw [if_neg hp, if_neg (by simp [hp])]
      simp

theorem foldl_addNode_edges (occs : List EntityOcc) (g : KGraph)
    (source : String) (now : ℝ) :
    (occs.foldl (fun g o => addNode g o.id o.label o.ntype source now) g).edges
      = g.edges := by
  induction occs generalizing g with
  | nil => rfl
  | cons o occs ih => rw [List.foldl_cons, ih, addNode_edges]

theorem edgeWeightOf_processParagraph (g : KGraph) (occs : List EntityOcc)
    (source : String) (now : ℝ) (k : String) :
    edgeWeightOf (processParagraph g occs source now) k
      = edgeWeightOf g k
        + (((pairsOf (occs.map (fun o => o.id))).countP
              (fun p => decide (edgeId p.1 p.2 = k)) : ℕ) : ℝ) := by
  unfold processParagraph
  rw [edgeWeightOf_foldl_addEdge]
  have he : edgeWeightOf
      (occs.foldl (fun g o => addNode g o.id o.label o.ntype source now) g) k
        = edgeWeightOf g k := by
    unfold edgeWeightOf
    rw [foldl_addNode_edges]
  rw [he]

theorem edgeWeightOf_buildGraphOccs (paras : List (List EntityOcc)) (g : KGraph)
    (source : String) (now : ℝ) (k : String) :
    edgeWeightOf (buildGraphOccs paras source now g) k
      = edgeWeightOf g k
        + (((paras.map (fun occs => (pairsOf (occs.map (fun o => o.id))).countP
              (fun p => decide (edgeId p.1 p.2 = k)))).sum : ℕ) : ℝ) := by
  induction paras generalizing g with
  | nil => simp [buildGraphOccs]
  | cons para paras ih =>
    unfold buildGraphOccs at ih ⊢
    rw [List.foldl_cons, ih, edgeWeightOf_processParagraph, List.map_cons,
      List.sum_cons]
    push_cast
    ring

theorem countP_pairsOf (a b : String) (hab : a ≠ b)
    (ha : sepFree a) (hb : sepFree b) :
    ∀ (l : List String), (∀ x ∈ l, sepFree x) →
      (pairsOf l).countP (fun p => decide (edgeId p.1 p.2 = edgeId a b))
        = l.count a * l.count b := by
  intro l
  induction l with
  | nil => intro _; simp [pairsOf]
  | cons x xs ih =>
    intro hl
    have hx : sepFree x := hl x (List.mem_cons_self x xs)
    have hxs : ∀ y ∈ xs, sepFree y := fun y hy => hl y (List.mem_cons_of_mem x hy)
    rw [pairsOf, List.countP_append, List.countP_map, ih hxs]
    rw [List.count_cons, List.count_cons]
    by_cases hxa : x = a
    · subst hxa
      have hxb : x ≠ b := hab
      have hcount : xs.countP
          ((fun p => decide (edgeId p.1 p.2 = edgeId x b)) ∘ (fun y => (x, y)))
            = xs.count b := by
        show _ = xs.countP (fun y => y == b)
        apply List.countP_congr
        intro y hy
        simp only [Function.comp_apply, decide_eq_true_eq, beq_iff_eq]
        rw [edgeId_eq_iff hx (hxs y hy) hx hb]
        constructor
        · rintro (⟨_, h2⟩ | ⟨h1, _⟩)
          · exact h2
          · exact absurd h1 hab
        · intro h; exact Or.inl ⟨rfl, h⟩
      rw [hcount]
      have c1 : (x == x) = true := beq_self_eq_true x
      have c2 : (x == b) = false := beq_eq_false_iff_ne.mpr hxb
      simp [c1, c2]
      ring
    · by_cases hxb : x = b
      · subst hxb
        have hcount : xs.countP
            ((fun p => decide (edgeId p.1 p.2 = edgeId a x)) ∘ (fun y => (x, y)))
              = xs.count a := by
          show _ = xs.countP (fun y => y == a)
          apply List.countP_congr
          intro y hy
          simp only [Function.comp_apply, decide_eq_true_eq, beq_iff_eq]
          rw [edgeId_eq_iff hx (hxs y hy) ha hx]
          constructor
          · rintro (⟨h1, _⟩ | ⟨_, h2⟩)
            · exact absurd h1.symm hab
            · exact h2
          · intro h; exact Or.inr ⟨rfl, h⟩
        rw [hcount]
        have c1 : (x == x) = true := beq_self_eq_true x
        have c2 : (x == a) = false := beq_eq_false_iff_ne.mpr hxa
        simp [c1, c2]
        ring
      · have hcount : xs.countP
            ((fun p => decide (edgeId p.1 p.2 = edgeId a b)) ∘ (fun y => (x, y)))
              = 0 := by
          rw [List.countP_eq_zero]
          intro y hy
          simp only [Function.comp_apply, decide_eq_true_eq]
          intro hc
          rcases (edgeId_eq_iff hx (hxs y hy) ha hb).mp hc with ⟨h1, _⟩ | ⟨h1, _⟩
          · exact hxa h1
          · exact hxb h1
        rw [hcount]
        have c1 : (x == a) = false := beq_eq_false_iff_ne.mpr hxa
        have c2 : (x == b) = false := beq_eq_false_iff_ne.mpr hxb
        simp [c1, c2]

/-! #### Structural invariants of the edge map -/

/-- Every stored edge has co-occurrence count at least 1. -/
def edgesWeightGE1 (g : KGraph) : Prop :=
  ∀ k e, g.edges.lookup k = some e → (1 : ℝ) ≤ e.weight

/-- The edge map has pairwise-distinct keys. -/
def edgeKeysNodup (g : KGraph) : Prop := (g.edges.map Prod.fst).Nodup

theorem updAssoc_keys (m : List (String × β)) (k : String) (f : β → β) :
    (updAssoc m k f).map Prod.fst = m.map Prod.fst := by
  induction m with
  | nil => rfl
  | cons p m ih =>
    obtain ⟨a, b⟩ := p
    by_cases h : a = k <;> simp [updAssoc, h, ih]

theorem lookup_isSome_of_mem_keys (m : List (String × β)) (k : String)
    (h : k ∈ m.map Prod.fst) : (m.lookup k).isSome := by
  induction m with
  | nil => simp at h
  | cons p m ih =>
    obtain ⟨a, b⟩ := p
    rw [List.map_cons, List.mem_cons] at h
    by_cases hk : k = a
    · simp [hk]
    · simp only [lookup_cons, if_neg hk]
      exact ih (h.resolve_left hk)

theorem edgesWeightGE1_addEdge (g : KGraph) (h : edgesWeightGE1 g)
    (s t : String) (now : ℝ) : edgesWeightGE1 (addEdge g s t now) := by
  intro k e hk
  by_cases hs : (g.edges.lookup (edgeId s t)).isSome
  · rw [addEdge, if_pos hs] at hk
    simp only at hk
    rw [lookup_updAssoc] at hk
    by_cases hkk : k = edgeId s t
    · rw [if_pos hkk] at hk
      rcases Option.isSome_iff_exists.mp hs with ⟨e0, he0⟩
      rw [hkk, he0, Option.map_some'] at hk
      injection hk with hk
      have h0 : (1 : ℝ) ≤ e0.weight := h _ _ he0
      rw [← hk]
      simp only
      linarith
    · rw [if_neg hkk] at hk
      exact h _ _ hk
  · rw [addEdge, if_neg hs] at hk
    simp only at hk
    rw [lookup_append] at hk
    cases hg : g.edges.lookup k with
    | some e0 =>
      rw [hg] at hk
      rw [show (Option.some e0).or _ = some e0 from rfl] at hk
      cases hk
      exact h _ _ hg
    | none =>
      rw [hg] at hk
      rw [show (Option.none).or (List.lookup k _) = List.lookup k _ from rfl] at hk
      by_cases hkk : k = edgeId s t
      · rw [hkk, lookup_cons, if_pos rfl] at hk
        cases hk
        norm_num
      · rw [lookup_cons, if_neg hkk] at hk
        simp [List.lookup] at hk

theorem edgesWeightGE1_addNode (g : KGraph) (h : edgesWeightGE1 g)
    (id label ntype source : String) (now : ℝ) :
    edgesWeightGE1 (addNode g id label ntype source now) := by
  intro k e hk
  rw [show (addNode g id label ntype source now).edges = g.edges from
    addNode_edges g id label ntype source now] at hk
  exact h _ _ hk

theorem edgesWeightGE1_buildGraphOccs (paras : List (List EntityOcc))
    (source : String) (now : ℝ) (g : KGraph) (h : edgesWeightGE1 g) :
    edgesWeightGE1 (buildGraphOccs paras source now g) := by
  induction paras generalizing g with
  | nil => exact h
  | cons para paras ih =>
    unfold buildGraphOccs at ih ⊢
    rw [List.foldl_cons]
    apply ih
    unfold processParagraph
    have hnodes : edgesWeightGE1
        (para.foldl (fun g o => addNode g o.id o.label o.ntype source now) g) := by
      intro k e hk
      rw [show (para.foldl (fun g o => addNode g o.id o.label o.ntype source now)
          g).edges = g.edges from foldl_addNode_edges para g source now] at hk
      exact h _ _ hk
    generalize (para.foldl (fun g o => addNode g o.id o.label o.ntype source now) g)
      = g1 at hnodes ⊢
    generalize pairsOf (para.map (fun o => o.id)) = ps
    clear h ih
    induction ps generalizing g1 with
    | nil => exact hnodes
    | cons p ps ihp =>
      rw [List.foldl_cons]
      exact ihp _ (edgesWeightGE1_addEdge g1 hnodes p.1 p.2 now)

theorem edgeKeysNodup_addEdge (g : KGraph) (h : edgeKeysNodup g)
    (s t : String) (now : ℝ) : edgeKeysNodup (addEdge g s t now) := by
  unfold edgeKeysNodup at h ⊢
  by_cases hs : (g.edges.lookup (edgeId s t)).isSome
  · rw [addEdge, if_pos hs]
    simp only
    rw [updAssoc_keys]
    exact h
  · rw [addEdge, if_neg hs]
    simp only [List.map_append, List.map_cons, List.map_nil]
    have hmem : edgeId s t ∉ g.edges.map Prod.fst := fun hmem =>
      hs (lookup_isSome_of_mem_keys _ _ hmem)
    simp [List.nodup_append, h, hmem]

theorem edgeKeysNodup_buildGraphOccs (paras : List (List EntityOcc))
    (source : String) (now : ℝ) (g : KGraph) (h : edgeKeysNodup g) :
    edgeKeysNodup (buildGraphOccs paras source now g) := by
  induction paras generalizing g with
  | nil => exact h
  | cons para paras ih =>
    unfold buildGraphOccs at ih ⊢
    rw [List.foldl_cons]
    apply ih
    unfold processParagraph
    have hnodes : edgeKeysNodup
        (para.foldl (fun g o => addNode g o.id o.label o.ntype source now) g) := by
      unfold edgeKeysNodup
      rw [foldl_addNode_edges]
      exact h
    generalize (para.foldl (fun g o => addNode g o.id o.label o.ntype source now) g)
      = g1 at hnodes ⊢
    generalize pairsOf (para.map (fun o => o.id)) = ps
    clear h ih
    induction ps generalizing g1 with
    | nil => exact hnodes
    | cons p ps ihp =>
      rw [List.foldl_cons]
      exact ihp _ (edgeKeysNodup_addEdge g1 hnodes p.1 p.2 now)

/-- Claim C4: co-occurrence edges are paragraph-scoped.  Starting from an
empty graph, if two distinct entities co-occur exactly once in one
paragraph, the built graph holds exactly one edge between them (the edge
map has distinct keys and the id is order-independent) with count 1; if no
paragraph contains both, no edge between them exists. -/
theorem buildGraph_paragraph_scoped_edges (paras : List (List EntityOcc))
    (source : String) (now : ℝ) (a b : String) (hab : a ≠ b)
    (ha : sepFree a) (hb : sepFree b)
    (hids : ∀ p ∈ paras, ∀ o ∈ p, sepFree o.id) :
    ((paras.map (fun occs =>
          ((occs.map (fun o => o.id)).count a)
            * ((occs.map (fun o => o.id)).count b))).sum = 1 →
        ∃ e, (buildGraphOccs paras source now emptyKGraph).edges.lookup
              (edgeId a b) = some e
          ∧ e.weight = 1)
    ∧ ((∀ p ∈ paras, ¬ (a ∈ p.map (fun o => o.id) ∧ b ∈ p.map (fun o => o.id))) →
        (buildGraphOccs paras source now emptyKGraph).edges.lookup
            (edgeId a b) = none)
    ∧ edgeId b a = edgeId a b
    ∧ ((buildGraphOccs paras source now emptyKGraph).edges.map Prod.fst).Nodup := by
  have hmap : paras.map (fun occs =>
        (pairsOf (occs.map (fun o => o.id))).countP
          (fun p => decide (edgeId p.1 p.2 = edgeId a b)))
      = paras.map (fun occs =>
          ((occs.map (fun o => o.id)).count a)
            * ((occs.map (fun o => o.id)).count b)) := by
    apply List.map_congr_left
    intro occs hoccs
    apply countP_pairsOf a b hab ha hb
    intro x hx
    rw [List.mem_map] at hx
    obtain ⟨o, ho, rfl⟩ := hx
    exact hids occs hoccs o ho
  have hempty : edgeWeightOf emptyKGraph (edgeId a b) = 0 := rfl
  have master : edgeWeightOf (buildGraphOccs paras source now emptyKGraph)
      (edgeId a b)
        = (((paras.map (fun occs =>
            ((occs.map (fun o => o.id)).count a)
              * ((occs.map (fun o => o.id)).count b))).sum : ℕ) : ℝ) := by
    rw [edgeWeightOf_buildGraphOccs, hempty, hmap, zero_add]
  have hwf : edgesWeightGE1 (buildGraphOccs paras source now emptyKGraph) := by
    apply edgesWeightGE1_buildGraphOccs
    intro k e hk
    simp [emptyKGraph, List.lookup] at hk
  refine ⟨?_, ?_, edgeId_comm b a, ?_⟩
  · intro hsum
    have hw : edgeWeightOf (buildGraphOccs paras source now emptyKGraph)
        (edgeId a b) = 1 := by
      rw [master, hsum]
      norm_num
    cases hlook : (buildGraphOccs paras source now emptyKGraph).edges.lookup
        (edgeId a b) with
    | none =>
      exfalso
      unfold edgeWeightOf at hw
      rw [hlook] at hw
      norm_num at hw
    | some e =>
      refine ⟨e, rfl, ?_⟩
      unfold edgeWeightOf at hw
      rw [hlook] at hw
      exact hw
  · intro hno
    have hzero : (paras.map (fun occs =>
        ((occs.map (fun o => o.id)).count a)
          * ((occs.map (fun o => o.id)).count b))).sum = 0 := by
      apply List.sum_eq_zero
      intro n hn
      rw [List.mem_map] at hn
      obtain ⟨occs, hoc, rfl⟩ := hn
      have hnot := hno occs hoc
      by_cases hamem : a ∈ occs.map (fun o => o.id)
      · have hbnot : b ∉ occs.map (fun o => o.id) := fun hbm => hnot ⟨hamem, hbm⟩
        rw [List.count_eq_zero.mpr hbnot, Nat.mul_zero]
      · rw [List.count_eq_zero.mpr hamem, Nat.zero_mul]
    have hw : edgeWeightOf (buildGraphOccs paras source now emptyKGraph)
        (edgeId a b) = 0 := by
      rw [master, hzero]
      norm_num
    cases hlook : (buildGraphOccs paras source now emptyKGraph).edges.lookup
        (edgeId a b) with
    | none => rfl
    | some e =>
      exfalso
      have h1 : (1 : ℝ) ≤ e.weight := hwf _ _ hlook
      unfold edgeWeightOf at hw
      rw [hlook] at hw
      linarith
  · apply edgeKeysNodup_buildGraphOccs
    simp [edgeKeysNodup, emptyKGraph]

/-- Two concrete paragraphs: Anton and NVDA co-occur in the first, git sits
alone in the second. -/
def c4Paras : List (List EntityOcc) :=
  [[{ id := "person:anton", label := "Anton", ntype := "person" },
    { id := "ticker:nvda", label := "NVDA", ntype := "ticker" }],
   [{ id := "tool:git", label := "git", ntype := "tool" }]]

/-- Witness for C4 at concrete paragraphs: the single co-occurrence yields
one edge of weight 1. -/
theorem buildGraph_paragraph_scoped_edges_witness :
    ∃ e, (buildGraphOccs c4Paras "memory/2026-01-15.md" 7 emptyKGraph).edges.lookup
          (edgeId "person:anton" "ticker:nvda") = some e
      ∧ e.weight = 1 :=
  (buildGraph_paragraph_scoped_edges c4Paras "memory/2026-01-15.md" 7
      "person:anton" "ticker:nvda" (by decide) (by decide) (by decide)
      (by decide)).1 (by decide)

/-- Claim C9: `addNode` on an existing id keeps `label`, `ntype`, and
`firstSeen` (and the id) unchanged — even when called with a different
label or type — and only bumps `weight`, refreshes `lastSeen`, and adds the
source; other map entries and the edge map are untouched. -/
theorem addNode_existing_preserves_identity (g : KGraph)
    (id label' ntype' source' : String) (now : ℝ) (n₀ : GNode)
    (h : g.nodes.lookup id = some n₀) :
    ∃ n₁, (addNode g id label' ntype' source' now).nodes.lookup id = some n₁
      ∧ n₁.label = n₀.label ∧ n₁.ntype = n₀.ntype ∧ n₁.firstSeen = n₀.firstSeen
      ∧ n₁.id = n₀.id
      ∧ n₁.weight = n₀.weight + 1 ∧ n₁.lastSeen = now
      ∧ n₁.sources = (if n₀.sources.contains source' then n₀.sources
                      else n₀.sources ++ [source'])
      ∧ (∀ k, k ≠ id → (addNode g id label' ntype' source' now).nodes.lookup k
            = g.nodes.lookup k)
      ∧ (addNode g id label' ntype' source' now).edges = g.edges := by
  have hs : (g.nodes.lookup id).isSome := by rw [h]; rfl
  refine ⟨{ n₀ with
      weight := n₀.weight + 1
      lastSeen := now
      sources := if n₀.sources.contains source' then n₀.sources
                 else n₀.sources ++ [source'] },
    ?_, rfl, rfl, rfl, rfl, rfl, rfl, rfl, ?_, ?_⟩
  · rw [addNode, if_pos hs]
    simp only
    rw [lookup_updAssoc, if_pos rfl, h, Option.map_some']
  · intro k hk
    rw [addNode, if_pos hs]
    simp only
    rw [lookup_updAssoc, if_neg hk]
  · rw [addNode, if_pos hs]

/-- A concrete node and one-node graph used to exercise `addNode`. -/
noncomputable def c9Node : GNode :=
  { id := "topic:rust", label := "Rust", ntype := "topic", weight := 1,
    firstSeen := 5, lastSeen := 5, sources := ["MEMORY.md"] }

noncomputable def c9Graph : KGraph := { nodes := [("topic:rust", c9Node)], edges := [] }

/-- Witness for C9: re-adding `topic:rust` with a different label and type
keeps the stored label/type/firstSeen. -/
theorem addNode_existing_preserves_identity_witness :
    ∃ n₁, (addNode c9Graph "topic:rust" "Rust2" "tool" "SOUL.md" 9).nodes.lookup
          "topic:rust" = some n₁
      ∧ n₁.label = c9Node.label ∧ n₁.ntype = c9Node.ntype
      ∧ n₁.firstSeen = c9Node.firstSeen
      ∧ n₁.id = c9Node.id
      ∧ n₁.weight = c9Node.weight + 1 ∧ n₁.lastSeen = 9
      ∧ n₁.sources = (if c9Node.sources.contains "SOUL.md" then c9Node.sources
                      else c9Node.sources ++ ["SOUL.md"])
      ∧ (∀ k, k ≠ "topic:rust" →
            (addNode c9Graph "topic:rust" "Rust2" "tool" "SOUL.md" 9).nodes.lookup k
              = c9Graph.nodes.lookup k)
      ∧ (addNode c9Graph "topic:rust" "Rust2" "tool" "SOUL.md" 9).edges
          = c9Graph.edges :=
  addNode_existing_preserves_identity c9Graph "topic:rust" "Rust2" "tool"
    "SOUL.md" 9 c9Node (by simp [c9Graph])

/-! ### Ticker extraction (scripts/knowledge-to-city.js, `extractEntities`)

The ticker loop matches `/\b([A-Z]{2,5})\b/g` against a file's content and
accepts a match `t` iff
`VALID_TICKERERS.has(t) || (!TICKER_EXCLUSIONS.has(t) && content.includes('$' + t))`.
A `\b…\b`-delimited `[A-Z]{2,5}` match is exactly a maximal word-character
run consisting of 2–5 uppercase ASCII letters.
-/

/-- JavaScript `\w`: ASCII letters, digits, underscore. -/
def isWordChar (c : Char) : Bool := c.isAlphanum || c == '_'

/-- Maximal runs of word characters in a text. -/
def wordRuns (l : List Char) : List (List Char) :=
  (l.splitOnP (fun c => !isWordChar c)).filter (fun r => !r.isEmpty)

/-- A word run that `/\b([A-Z]{2,5})\b/` matches: 2–5 uppercase letters. -/
def isTickerRun (w : List Char) : Bool :=
  w.all (fun c => c.isUpper) && decide (2 ≤ w.length) && decide (w.length ≤ 5)

/-- The `VALID_TICKERS` whitelist. -/
def VALID_TICKERS : List (List Char) :=
  (["LUNR", "RDW", "RKLB", "ASTS", "UEC", "CCJ", "SMR", "OKLO",
    "IONQ", "RGTI", "QUBT", "SOFI", "HOOD", "AMPX", "CTMX",
    "SPY", "QQQ", "NVDA", "TSLA", "AAPL", "MSFT", "GOOGL", "AMZN"]).map
    String.data

/-- The `TICKER_EXCLUSIONS` stop list. -/
def TICKER_EXCLUSIONS : List (List Char) :=
  (["THE", "AND", "FOR", "NOT", "BUT", "YOU", "ALL", "CAN", "HER", "WAS",
    "ONE", "OUR", "OUT", "ARE", "HAS", "HIS", "HOW", "ITS", "MAY", "NEW",
    "NOW", "OLD", "SEE", "WAY", "WHO", "BOY", "DID", "GET", "HIM", "LET",
    "PUT", "SAY", "SHE", "TOO", "USE", "DAY", "HAD", "MAN", "API", "URL",
    "PST", "UTC", "AM", "PM", "OK", "ID", "UI", "WS", "MD", "JS", "CLI",
    "TTS", "NLP", "GPU", "CPU", "RAM", "SSD", "USB", "SSH", "FPS", "HUD",
    "RGB", "HSL", "CSS", "HTML", "JSON", "YAML", "CORS", "REST", "CRUD"]).map
    String.data

/-- The acceptance test applied to each matched run. -/
def tickerAccepted (content run : List Char) : Bool :=
  VALID_TICKERS.contains run
    || (!TICKER_EXCLUSIONS.contains run && decide (('$' :: run) <:+: content))

/-- The set of runs the ticker loop classifies as tickers in a document. -/
def extractTickersCity (content : List Char) : List (List Char) :=
  ((wordRuns content).filter isTickerRun).filter (tickerAccepted content)

/-- Claim C3: a 2–5 uppercase run occurring in a document is classified as
a ticker iff it is whitelisted, or it is not stop-listed and its
dollar-prefixed form appears anywhere in the document. -/
theorem ticker_classification (content run : List Char)
    (hrun : run ∈ (wordRuns content).filter isTickerRun) :
    run ∈ extractTickersCity content
      ↔ (run ∈ VALID_TICKERS
          ∨ (run ∉ TICKER_EXCLUSIONS ∧ ('$' :: run) <:+: content)) := by
  unfold extractTickersCity
  rw [List.mem_filter]
  have hacc : (tickerAccepted content run = true)
      ↔ (run ∈ VALID_TICKERS
          ∨ (run ∉ TICKER_EXCLUSIONS ∧ ('$' :: run) <:+: content)) := by
    unfold tickerAccepted
    simp
  constructor
  · rintro ⟨_, h⟩
    exact hacc.mp h
  · intro hc
    exact ⟨hrun, hacc.mpr hc⟩

/-- Witness for C3: in "NVDA and TSLA today", the whitelisted run NVDA is a
ticker even though no `$NVDA` appears. -/
theorem ticker_classification_witness :
    "NVDA".data ∈ extractTickersCity ("NVDA and TSLA today".data) :=
  (ticker_classification ("NVDA and TSLA today".data) "NVDA".data
    (by decide)).mpr (Or.inl (by decide))

/-! ### `normalize` (knowledge-engine extractor.js) -/

/-- ASCII whitespace — the ASCII fragment of JavaScript `\s`. -/
def isWsChar (c : Char) : Bool :=
  c == ' ' || c == '\t' || c == '\n' || c == '\r' || c == '\x0b' || c == '\x0c'

/-- `String.prototype.trim`. -/
def trimChars (l : List Char) : List Char :=
  ((l.dropWhile isWsChar).reverse.dropWhile isWsChar).reverse

/-- `replace(/\s+/g, '_')`: collapse each maximal whitespace run to a
single underscore (`prevWs` tracks whether the previous character was
whitespace). -/
def collapseWs : Bool → List Char → List Char
  | _, [] => []
  | prevWs, c :: rest =>
      if isWsChar c then
        (if prevWs then ([] : List Char) else ['_']) ++ collapseWs true rest
      else c :: collapseWs false rest

/-- `normalize(label)`: lower-case, trim, whitespace runs to `_`, strip
`[^\w\-_]`, `slice(0, 100)`.  The empty guard models `if (!label)`. -/
def normalize (label : String) : String :=
  if label = "" then ""
  else
    String.mk (((collapseWs false (trimChars (label.data.map Char.toLower))).filter
      (fun c => isWordChar c || c == '-')).take 100)

/-- The claim's wording, verbatim: lower-cased and trimmed, every
whitespace run replaced by an underscore, every non-alphanumeric character
stripped, truncated to 100. -/
def specNormalize (label : String) : String :=
  String.mk (((collapseWs false (trimChars (label.data.map Char.toLower))).filter
    (fun c => c.isAlphanum)).take 100)

/-- The amended wording: every character other than ASCII alphanumerics,
underscore and hyphen is stripped. -/
def amendedNormalize (label : String) : String :=
  if label = "" then ""
  else
    String.mk (((collapseWs false (trimChars (label.data.map Char.toLower))).filter
      (fun c => c.isAlphanum || c == '_' || c == '-')).take 100)

/-- Counterexample to C6 as stated: `normalize` keeps the underscore it
substitutes for whitespace (and keeps hyphens), while the claim's wording
strips every non-alphanumeric character. -/
theorem normalize_counterexample :
    normalize "a b" = "a_b" ∧ specNormalize "a b" = "ab"
      ∧ normalize "a b" ≠ specNormalize "a b" := by
  refine ⟨?_, ?_, ?_⟩ <;> decide

theorem data_join_colon (u v : String) :
    (u ++ ":" ++ v).data = u.data ++ ':' :: v.data := by
  have h1 : (u ++ ":" ++ v).data = (u.data ++ (":" : String).data) ++ v.data := by
    rw [String.data_append, String.data_append]
  rw [h1, List.append_assoc]
  rfl

theorem colon_not_mem_normalize (label : String) : ':' ∉ (normalize label).data := by
  unfold normalize
  split_ifs
  · simp
  · intro hmem
    have h1 : ':' ∈ (collapseWs false (trimChars (label.data.map Char.toLower))).filter
        (fun c => isWordChar c || c == '-') := List.take_subset _ _ hmem
    have h2 := (List.mem_filter.mp h1).2
    exact absurd h2 (by decide)

/-- Claim C6, amended: `normalize` is lower-case, trim, whitespace runs to
underscore, strip everything but alphanumerics, underscore and hyphen,
truncate to 100; and `type:normalize(label)` ids are injective on
`(type, normalize(label))`. -/
theorem normalize_amended_and_id_injective :
    (∀ label, normalize label = amendedNormalize label)
    ∧ (∀ t₁ t₂ l₁ l₂ : String,
        t₁ ++ ":" ++ normalize l₁ = t₂ ++ ":" ++ normalize l₂ →
          t₁ = t₂ ∧ normalize l₁ = normalize l₂) := by
  constructor
  · intro label
    unfold normalize amendedNormalize
    split_ifs with h
    · rfl
    · have hpred : (fun c => isWordChar c || c == '-')
          = (fun c : Char => c.isAlphanum || c == '_' || c == '-') := by
        funext c
        simp [isWordChar, Bool.or_assoc]
      rw [hpred]
  · intro t₁ t₂ l₁ l₂ h
    have hd : t₁.data ++ ':' :: (normalize l₁).data
        = t₂.data ++ ':' :: (normalize l₂).data := by
      rw [← data_join_colon, ← data_join_colon, h]
    obtain ⟨h1, h2⟩ := append_sep_inj t₁.data (normalize l₁).data t₂.data
      (normalize l₂).data (colon_not_mem_normalize l₁) (colon_not_mem_normalize l₂) hd
    exact ⟨String.ext h1, String.ext h2⟩

/-- Witness for the amended C6 at concrete labels: "Hello World" and
"Hello  World" normalize identically, and equal ids force equal parts. -/
theorem normalize_amended_witness :
    normalize "Hello World" = amendedNormalize "Hello World"
    ∧ ("topic" = "topic" ∧ normalize "Hello World" = normalize "Hello  World") :=
  ⟨normalize_amended_and_id_injective.1 "Hello World",
   normalize_amended_and_id_injective.2 "topic" "topic" "Hello World"
     "Hello  World" (by decide)⟩

/-! ### File watcher (`watcher.js`, `FileWatcher`)

`processFileChange` runs at debounce expiry.  The MD5 digest is abstracted
as an arbitrary `hashFn`; the filesystem read is the `readContent` argument
(`none` models a read error, which the source logs and drops); the
workspace-relative path (`path.relative`) is passed directly. -/

/-- The watcher's own `SOURCE_WEIGHTS` table (it carries no `TOOLS.md`
entry). -/
noncomputable def WATCHER_SOURCE_WEIGHTS : List (String × ℝ) :=
  [("SOUL.md", 5), ("MEMORY.md", 3), ("USER.md", 3), ("AGENTS.md", 2),
   ("memory/", 1)]

/-- `FileWatcher.getSourceWeight`: first pattern equal to or prefixing the
relative path wins; default 1.0. -/
noncomputable def watcherSourceWeight (relativePath : String) : ℝ :=
  match WATCHER_SOURCE_WEIGHTS.find?
      (fun p => relativePath == p.1 || relativePath.startsWith p.1) with
  | some p => p.2
  | none => 1

/-- The watcher's mutable state: `fileHashes`. -/
structure FileWatcherState where
  fileHashes : List (String × String)

/-- `hasActuallyChanged(filepath, content)`: true — and the stored hash is
replaced — iff the new hash differs from the stored one (a missing stored
hash counts as different). -/
def hasActuallyChanged (hashFn : String → String) (st : FileWatcherState)
    (filepath content : String) : Bool × FileWatcherState :=
  if st.fileHashes.lookup filepath ≠ some (hashFn content) then
    (true, { fileHashes := setAssoc st.fileHashes filepath (hashFn content) })
  else
    (false, st)

/-- A watcher notification. -/
inductive WatchEvent where
  | fileDeleted (path relativePath : String) (timestamp : ℝ)
  | fileChanged (path relativePath content : String) (weight : ℝ)
      (eventType : String) (timestamp : ℝ)

/-- JavaScript `filepath.endsWith('.md')`, on the character level. -/
def endsWithMd (filepath : String) : Bool := decide (".md".data <:+ filepath.data)

/-- `processFileChange(filepath, eventType)`: skip non-`.md` paths; handle
deletion; otherwise read, compare hashes, and emit `file:changed` only when
the content hash differs. -/
noncomputable def processFileChange (hashFn : String → String)
    (st : FileWatcherState) (filepath relativePath eventType : String)
    (readContent : Option String) (now : ℝ) :
    FileWatcherState × Option WatchEvent :=
  if ¬ endsWithMd filepath then (st, none)
  else if eventType = "unlink" then
    ({ fileHashes := st.fileHashes.filter (fun p => p.1 != filepath) },
     some (.fileDeleted filepath relativePath now))
  else
    match readContent with
    | none => (st, none)
    | some content =>
        if (hasActuallyChanged hashFn st filepath content).1 = false then
          ((hasActuallyChanged hashFn st filepath content).2, none)
        else
          ((hasActuallyChanged hashFn st filepath content).2,
           some (.fileChanged filepath relativePath content
              (watcherSourceWeight relativePath) eventType now))

theorem hasActuallyChanged_same (hashFn : String → String)
    (st : FileWatcherState) (filepath content : String)
    (h : st.fileHashes.lookup filepath = some (hashFn content)) :
    hasActuallyChanged hashFn st filepath content = (false, st) := by
  unfold hasActuallyChanged
  rw [if_neg (not_not_intro h)]

theorem hasActuallyChanged_diff (hashFn : String → String)
    (st : FileWatcherState) (filepath content : String)
    (h : st.fileHashes.lookup filepath ≠ some (hashFn content)) :
    hasActuallyChanged hashFn st filepath content
      = (true, { fileHashes := setAssoc st.fileHashes filepath (hashFn content) }) := by
  unfold hasActuallyChanged
  rw [if_pos h]

/-- Claim C8: at debounce expiry on a watched `.md` path, an event whose
content hashes to the stored hash is discarded — the state is unchanged and
no notification is emitted; a `file:changed` notification is emitted
exactly when the hash differs, and then the stored hash is replaced by the
new one. -/
theorem watcher_hash_dedup (hashFn : String → String) (st : FileWatcherState)
    (filepath relativePath eventType content : String) (now : ℝ)
    (hmd : endsWithMd filepath = true) (hev : eventType ≠ "unlink") :
    (st.fileHashes.lookup filepath = some (hashFn content) →
        processFileChange hashFn st filepath relativePath eventType
            (some content) now
          = (st, none))
    ∧ (st.fileHashes.lookup filepath ≠ some (hashFn content) →
        (processFileChange hashFn st filepath relativePath eventType
              (some content) now).2
            = some (.fileChanged filepath relativePath content
                (watcherSourceWeight relativePath) eventType now)
          ∧ (processFileChange hashFn st filepath relativePath eventType
              (some content) now).1.fileHashes.lookup filepath
              = some (hashFn content)) := by
  constructor
  · intro hsame
    unfold processFileChange
    rw [if_neg (not_not_intro hmd), if_neg hev]
    rw [show (match (some content : Option String) with
        | none => (st, (none : Option WatchEvent))
        | some content =>
            if (hasActuallyChanged hashFn st filepath content).1 = false then
              ((hasActuallyChanged hashFn st filepath content).2, none)
            else
              ((hasActuallyChanged hashFn st filepath content).2,
               some (.fileChanged filepath relativePath content
                  (watcherSourceWeight relativePath) eventType now)))
      = (if (hasActuallyChanged hashFn st filepath content).1 = false then
          ((hasActuallyChanged hashFn st filepath content).2, none)
        else
          ((hasActuallyChanged hashFn st filepath content).2,
           some (.fileChanged filepath relativePath content
              (watcherSourceWeight relativePath) eventType now))) from rfl]
    rw [hasActuallyChanged_same hashFn st filepath content hsame]
    rfl
  · intro hdiff
    unfold processFileChange
    rw [if_neg (not_not_intro hmd), if_neg hev]
    rw [show (match (some content : Option String) with
        | none => (st, (none : Option WatchEvent))
        | some content =>
            if (hasActuallyChanged hashFn st filepath content).1 = false then
              ((hasActuallyChanged hashFn st filepath content).2, none)
            else
              ((hasActuallyChanged hashFn st filepath content).2,
               some (.fileChanged filepath relativePath content
                  (watcherSourceWeight relativePath) eventType now)))
      = (if (hasActuallyChanged hashFn st filepath content).1 = false then
          ((hasActuallyChanged hashFn st filepath content).2, none)
        else
          ((hasActuallyChanged hashFn st filepath content).2,
           some (.fileChanged filepath relativePath content
              (watcherSourceWeight relativePath) eventType now))) from rfl]
    rw [hasActuallyChanged_diff hashFn st filepath content hdiff]
    refine ⟨rfl, ?_⟩
    simp only
    exact lookup_setAssoc_self st.fileHashes filepath (hashFn content)

/-- Witness for C8 at a concrete state with the identity hash: an unchanged
`MEMORY.md` event is discarded. -/
theorem watcher_hash_dedup_witness :
    processFileChange (fun s => s)
        { fileHashes := [("MEMORY.md", "content1")] }
        "MEMORY.md" "MEMORY.md" "change" (some "content1") 5
      = ({ fileHashes := [("MEMORY.md", "content1")] }, none) :=
  (watcher_hash_dedup (fun s => s) { fileHashes := [("MEMORY.md", "content1")] }
    "MEMORY.md" "MEMORY.md" "change" "content1" 5 (by decide)
    (by decide)).1 (by simp)

/-! ### `generateBuildings` (scripts/knowledge-to-city.js)

Entities are sorted by mentions descending (JavaScript's stable sort with
comparator `(a, b) => b.mentions - a.mentions`, modelled by the stable
`mergeSort`), truncated to the top 100, and mapped to buildings.  Mention
counts are file-weight sums — exact rationals.
-/

/-- A knowledge-to-city entity (`extractEntities`' map values). -/
structure CityEntity where
  id : String
  ntype : String
  label : String
  mentions : ℚ
  sources : List String
  district : String

/-- A city building. -/
structure Building where
  id : String
  ntype : String
  label : String
  district : String
  x : ℝ
  z : ℝ
  height : ℝ
  width : ℚ
  depth : ℚ
  mentions : ℚ
  sources : List String

/-- The `DISTRICTS` position table; `classifyToDistrict` only ever yields
one of the five configured names, `core` sitting at the origin. -/
noncomputable def districtPosition (district : String) : ℝ × ℝ :=
  if district = "trading" then (25, 10)
  else if district = "infrastructure" then (-20, 15)
  else if district = "projects" then (10, -25)
  else if district = "memory" then (-15, -20)
  else (0, 0)

/-- The `typeWidths` table with default 2.5. -/
def typeWidth (t : String) : ℚ :=
  if t = "ticker" then 2
  else if t = "tool" then 3
  else if t = "project" then 4
  else if t = "topic" then 3
  else if t = "concept" then 5/2
  else 5/2

/-- `Math.round(v * 10) / 10`. -/
noncomputable def round10 (v : ℝ) : ℝ := (round (v * 10) : ℝ) / 10

/-- The building built for an entity at position `index` within its
district (golden-angle spiral, log-scaled height). -/
noncomputable def mkBuilding (entity : CityEntity) (index : ℕ) : Building :=
  let dp := districtPosition entity.district
  let angle := (index : ℝ) * 0.618033988749895 * Real.pi * 2
  let radius := 3 + Real.sqrt (index : ℝ) * 3
  let x := dp.1 + Real.cos angle * radius
  let z := dp.2 + Real.sin angle * radius
  let height := 5 + Real.logb 2 ((entity.mentions : ℝ) + 1) * 5
  { id := entity.id, ntype := entity.ntype, label := entity.label,
    district := entity.district,
    x := round10 x, z := round10 z, height := round10 height,
    width := typeWidth entity.ntype, depth := typeWidth entity.ntype,
    mentions := entity.mentions, sources := entity.sources }

/-- The `for (const entity of top)` loop, threading the per-district
counters (`districtCounts[district] = (districtCounts[district] || 0) + 1`). -/
noncomputable def genGo : List CityEntity → List (String × ℕ) → List Building
  | [], _ => []
  | e :: rest, counts =>
      mkBuilding e ((counts.lookup e.district).getD 0 + 1)
        :: genGo rest (setAssoc counts e.district ((counts.lookup e.district).getD 0 + 1))

/-- The descending-by-mentions comparator. -/
def byMentionsDesc (a b : CityEntity) : Bool := decide (b.mentions ≤ a.mentions)

/-- `generateBuildings(entities)`: sort by mentions descending, keep the
top 100, emit a building each. -/
noncomputable def generateBuildings (entities : List CityEntity) : List Building :=
  genGo ((entities.mergeSort byMentionsDesc).take 100) []

theorem genGo_map_id_mentions :
    ∀ (l : List CityEntity) (counts : List (String × ℕ)),
      (genGo l counts).map (fun b => (b.id, b.mentions))
        = l.map (fun e => (e.id, e.mentions))
  | [], _ => rfl
  | e :: rest, counts => by
      rw [genGo, List.map_cons, List.map_cons,
        genGo_map_id_mentions rest (setAssoc counts e.district
          ((counts.lookup e.district).getD 0 + 1))]
      rfl

/-- Claim C10: `generateBuildings` emits at most 100 buildings, and they are
the highest-mention entities: an entity whose id is absent from the output
has mentions no greater than any emitted building. -/
theorem generateBuildings_top100 (entities : List CityEntity) :
    (generateBuildings entities).length ≤ 100
    ∧ (∀ e ∈ entities,
        (∀ b ∈ generateBuildings entities, e.id ≠ b.id) →
        ∀ b ∈ generateBuildings entities, e.mentions ≤ b.mentions) := by
  have hlen : ∀ (l : List CityEntity) (counts : List (String × ℕ)),
      (genGo l counts).length = l.length := by
    intro l counts
    have := congrArg List.length (genGo_map_id_mentions l counts)
    simpa using this
  constructor
  · rw [generateBuildings, hlen, List.length_take]
    exact min_le_left _ _
  · intro e hmem hid b hb
    set sorted := entities.mergeSort byMentionsDesc with hsorted
    have hperm : sorted.Perm entities := List.mergeSort_perm entities byMentionsDesc
    have hsortedPW : List.Pairwise (fun a b => byMentionsDesc a b = true) sorted := by
      apply List.sorted_mergeSort
      · intro a1 a2 a3 h1 h2
        unfold byMentionsDesc at h1 h2 ⊢
        simp only [decide_eq_true_eq] at h1 h2 ⊢
        exact le_trans h2 h1
      · intro a1 a2
        unfold byMentionsDesc
        rcases le_total a2.mentions a1.mentions with h | h
        · simp [h]
        · simp [h]
    -- the emitted pairs are exactly the pairs of the taken prefix
    have hpairs : (generateBuildings entities).map (fun b => (b.id, b.mentions))
        = (sorted.take 100).map (fun e => (e.id, e.mentions)) := by
      rw [generateBuildings, genGo_map_id_mentions]
    -- the queried building corresponds to an entity in the taken prefix
    have hbpair : (b.id, b.mentions) ∈ (sorted.take 100).map
        (fun e => (e.id, e.mentions)) := by
      rw [← hpairs]
      exact List.mem_map_of_mem _ hb
    rw [List.mem_map] at hbpair
    obtain ⟨a, hamem, hapair⟩ := hbpair
    have hament : a.mentions = b.mentions := congrArg Prod.snd hapair
    -- e is in the sorted list but not in the taken prefix
    have hesorted : e ∈ sorted := hperm.symm.subset hmem
    have hetake : e ∉ sorted.take 100 := by
      intro hc
      have : (e.id, e.mentions) ∈ (sorted.take 100).map
          (fun e => (e.id, e.mentions)) := List.mem_map_of_mem _ hc
      rw [← hpairs, List.mem_map] at this
      obtain ⟨b', hb', hb'eq⟩ := this
      exact hid b' hb' (congrArg Prod.fst hb'eq).symm
    have hedrop : e ∈ sorted.drop 100 := by
      rcases (List.mem_append.mp
        (by rw [List.take_append_drop]; exact hesorted :
          e ∈ sorted.take 100 ++ sorted.drop 100)) with h | h
      · exact absurd h hetake
      · exact h
    -- sortedness across the take/drop boundary
    have hcross : ∀ x ∈ sorted.take 100, ∀ y ∈ sorted.drop 100,
        byMentionsDesc x y = true := by
      have := (List.pairwise_append.mp
        (by rw [List.take_append_drop]; exact hsortedPW :
          List.Pairwise (fun a b => byMentionsDesc a b = true)
            (sorted.take 100 ++ sorted.drop 100))).2.2
      exact this
    have hle : byMentionsDesc a e = true := hcross a hamem e hedrop
    unfold byMentionsDesc at hle
    simp only [decide_eq_true_eq] at hle
    rw [← hament]
    exact hle

/-- Witness for C10 at two concrete entities (nothing is dropped, the bound
holds). -/
theorem generateBuildings_top100_witness :
    (generateBuildings
      [{ id := "ticker:nvda", ntype := "ticker", label := "NVDA", mentions := 5,
         sources := ["MEMORY.md"], district := "trading" },
       { id := "tool:git", ntype := "tool", label := "git", mentions := 2,
         sources := ["TOOLS.md"], district := "infrastructure" }]).length ≤ 100 :=
  (generateBuildings_top100
    [{ id := "ticker:nvda", ntype := "ticker", label := "NVDA", mentions := 5,
       sources := ["MEMORY.md"], district := "trading" },
     { id := "tool:git", ntype := "tool", label := "git", mentions := 2,
       sources := ["TOOLS.md"], district := "infrastructure" }]).1

/-! ### Entity extractor (knowledge-engine extractor.js, `extractEntities`)

The extractor is a pure function of the markdown text: regex extractions
are modelled character-by-character; the compromise NLP pass (topics /
people / organizations, fed the markdown with Markdown syntax stripped) is
an external library and is abstracted as a triple of total functions.
Scanners that advance through the text take the text length as structural
fuel.  Date.now() is the explicit `now`.
-/

/-- Case-insensitive character equality (JavaScript `/i`). -/
def lcEq (a b : Char) : Bool := a.toLower == b.toLower

/-- Case-insensitive prefix test. -/
def startsWithCI : List Char → List Char → Bool
  | [], _ => true
  | _ :: _, [] => false
  | p :: ps, c :: cs => lcEq p c && startsWithCI ps cs

/-- `TICKER_BLACKLIST` from extractor.js. -/
def TICKER_BLACKLIST : List String :=
  ["I", "A", "IT", "IS", "BE", "TO", "IN", "ON", "AT", "BY", "OR", "AN", "AS",
   "IF", "OF", "SO", "DO", "UP", "NO", "GO", "MY", "WE", "US", "AM", "PM",
   "OK", "VS", "AI", "UI", "UX", "ID", "JS", "TS", "MD", "CSS", "HTML", "API",
   "CLI", "SDK", "URL", "SSH", "VPS", "CPU", "GPU", "RAM", "SSD", "HDD",
   "FOR", "THE", "AND", "BUT", "NOT", "YOU", "ALL", "CAN", "HAD", "HER",
   "WAS", "ONE", "OUR", "OUT", "DAY", "GET", "HAS", "HIM", "HIS", "HOW",
   "NEW", "NOW", "OLD", "SEE", "WAY", "WHO", "BOY", "DID", "ITS", "LET",
   "PUT", "SAY", "SHE", "TOO", "USE", "TODO", "NOTE", "TEMP", "TEST", "DONE"]

/-- `isTicker(str)` from extractor.js: 2–5 chars, not black-listed, all
uppercase ASCII letters. -/
def isTicker (str : String) : Bool :=
  if str.length < 2 || 5 < str.length then false
  else if TICKER_BLACKLIST.contains str then false
  else if !(str.data.all (fun c => c.isUpper)) then false
  else true

/-- The ticker extraction: `/\b[A-Z]{2,5}\b/g` matches filtered by
`isTicker`, de-duplicated in first-seen order (`[...new Set(...)]`). -/
def tickersOf (markdown : String) : List String :=
  ((((wordRuns markdown.data).filter isTickerRun).map String.mk).filter
    isTicker).eraseDups

/-- Scanner for `` /`([^`\n]+)`/g ``: non-overlapping backtick pairs with a
non-empty single-line body. -/
def backtickSpans : ℕ → List Char → List (List Char)
  | 0, _ => []
  | _, [] => []
  | fuel + 1, c :: rest =>
      if c == '\x60' then
        let span := rest.takeWhile (fun d => !(d == '\x60') && !(d == '\n'))
        let after := rest.drop span.length
        if !span.isEmpty && (after.head? == some '\x60') then
          span :: backtickSpans fuel (after.drop 1)
        else backtickSpans fuel rest
      else backtickSpans fuel rest

/-- The tools extraction: backtick bodies, trimmed, non-empty, shorter than
50, without spaces, de-duplicated. -/
def toolsOf (markdown : String) : List String :=
  (((backtickSpans markdown.data.length markdown.data).map
      (fun s => String.mk (trimChars s))).filter
    (fun t => decide (0 < t.length) && decide (t.length < 50)
      && !(t.data.contains ' '))).eraseDups

/-- `[^\s\)>\]]` — characters a URL body may contain. -/
def urlAllowed (c : Char) : Bool :=
  !(isWsChar c) && !(c == ')') && !(c == '>') && !(c == ']')

/-- Scanner for `/https?:\/\/[^\s\)>\]]+/g`. -/
def urlScan : ℕ → List Char → List (List Char)
  | 0, _ => []
  | _, [] => []
  | fuel + 1, l =>
      match l with
      | [] => []
      | _ :: rest =>
          if ("https://".data).isPrefixOf l then
            let body := (l.drop 8).takeWhile urlAllowed
            if !body.isEmpty then
              ("https://".data ++ body) :: urlScan fuel ((l.drop 8).drop body.length)
            else urlScan fuel rest
          else if ("http://".data).isPrefixOf l then
            let body := (l.drop 7).takeWhile urlAllowed
            if !body.isEmpty then
              ("http://".data ++ body) :: urlScan fuel ((l.drop 7).drop body.length)
            else urlScan fuel rest
          else urlScan fuel rest

/-- `replace(/[.,;:]+$/, '')`. -/
def stripTrailingPunct (l : List Char) : List Char :=
  (l.reverse.dropWhile (fun c => c == '.' || c == ',' || c == ';' || c == ':')).reverse

/-- The URL extraction. -/
def urlsOf (markdown : String) : List String :=
  ((urlScan markdown.data.length markdown.data).map
    (fun u => String.mk (stripTrailingPunct u))).eraseDups

/-- The lines of a text (split at newlines). -/
def linesOf (md : List Char) : List (List Char) := md.splitOnP (fun c => c == '\n')

/-- The header extraction, line by line: `/^#{1,3}\s+(.+)$/gm` then the
`#`-and-whitespace prefix stripped and the rest trimmed.  (A `\s+` that
swallows the line break — a heading marker at end of line — is not
modelled.) -/
def headersOf (markdown : String) : List String :=
  ((linesOf markdown.data).filterMap (fun line =>
    let hashes := line.takeWhile (fun c => c == '#')
    let rest := line.drop hashes.length
    if decide (1 ≤ hashes.length) && decide (hashes.length ≤ 3)
        && ((rest.head?.map isWsChar).getD false)
        && !(rest.dropWhile isWsChar).isEmpty then
      some (String.mk (trimChars (rest.dropWhile isWsChar)))
    else none)).filter (fun h => decide (0 < h.length))

/-- Scanner for the completed-checkbox pattern (gi flags): the literal
`- [x]` marker, then optional whitespace, then the rest of the line. -/
def checkboxScan : ℕ → List Char → List (List Char)
  | 0, _ => []
  | _, [] => []
  | fuel + 1, l =>
      match l with
      | [] => []
      | _ :: rest =>
          if startsWithCI ("- [x]".data) l then
            let after := (l.drop 5).dropWhile isWsChar
            let cap := after.takeWhile (fun c => !(c == '\n'))
            if !cap.isEmpty then cap :: checkboxScan fuel (after.drop cap.length)
            else checkboxScan fuel rest
          else checkboxScan fuel rest

/-- One of the `DECISION_PATTERNS`: a keyword, an optional or mandatory
connector word, and the capture's maximum length. -/
structure DecisionPattern where
  kw : List Char
  conn : Option (List Char)
  connRequired : Bool
  maxLen : ℕ

/-- The six `DECISION_PATTERNS` of extractor.js. -/
def DECISION_PATTERNS_M : List DecisionPattern :=
  [⟨"decided".data, some ("to".data), false, 80⟩,
   ⟨"chose".data, some ("to".data), false, 80⟩,
   ⟨"will".data, some ("be".data), false, 60⟩,
   ⟨"going".data, some ("to".data), true, 60⟩,
   ⟨"committed".data, some ("to".data), true, 60⟩,
   ⟨"settled".data, some ("on".data), true, 60⟩]

/-- Scanner for one decision pattern
(`/kw\s+(?:conn\s+)?(.{10,maxLen})/gi`): case-insensitive keyword, at least
one whitespace, the greedy optional connector (with backtracking when the
capture would be too short), then 10–maxLen non-newline characters.
Backtracking into the whitespace run itself is not modelled. -/
def keywordScan (pat : DecisionPattern) : ℕ → List Char → List (List Char)
  | 0, _ => []
  | _, [] => []
  | fuel + 1, l =>
      match l with
      | [] => []
      | _ :: rest =>
          if startsWithCI pat.kw l then
            let afterKw := l.drop pat.kw.length
            let ws := afterKw.takeWhile isWsChar
            if ws.isEmpty then keywordScan pat fuel rest
            else
              let base := afterKw.drop ws.length
              let connSrc :=
                match pat.conn with
                | some cw =>
                    if startsWithCI cw base then
                      let ws2 := (base.drop cw.length).takeWhile isWsChar
                      if ws2.isEmpty then none
                      else some ((base.drop cw.length).drop ws2.length)
                    else none
                | none => none
              match connSrc with
              | some src =>
                  let cap := (src.takeWhile (fun c => !(c == '\n'))).take pat.maxLen
                  if 10 ≤ cap.length then
                    cap :: keywordScan pat fuel (src.drop cap.length)
                  else
                    let cap2 := (base.takeWhile (fun c => !(c == '\n'))).take pat.maxLen
                    if !pat.connRequired && decide (10 ≤ cap2.length) then
                      cap2 :: keywordScan pat fuel (base.drop cap2.length)
                    else keywordScan pat fuel rest
              | none =>
                  if pat.connRequired then keywordScan pat fuel rest
                  else
                    let cap := (base.takeWhile (fun c => !(c == '\n'))).take pat.maxLen
                    if 10 ≤ cap.length then
                      cap :: keywordScan pat fuel (base.drop cap.length)
                    else keywordScan pat fuel rest
          else keywordScan pat fuel rest

/-- `replace(/[.!?,;:]+$/, '')`. -/
def stripTrailingDecisionPunct (l : List Char) : List Char :=
  (l.reverse.dropWhile (fun c =>
    c == '.' || c == '!' || c == '?' || c == ',' || c == ';' || c == ':')).reverse

/-- The decisions extraction: completed checkbox items longer than 5, plus
keyword-pattern captures trimmed, stripped of trailing punctuation, of
length 6–99; de-duplicated. -/
def decisionsOf (markdown : String) : List String :=
  (((checkboxScan markdown.data.length markdown.data).filterMap
      (fun cap =>
        let d := String.mk (trimChars cap)
        if 5 < d.length then some d else none))
    ++ (DECISION_PATTERNS_M.flatMap (fun pat =>
        (keywordScan pat markdown.data.length markdown.data).filterMap
          (fun cap =>
            let d := String.mk (stripTrailingDecisionPunct (trimChars cap))
            if 5 < d.length ∧ d.length < 100 then some d else none)))).eraseDups

/-- Characters rejected at the start of an NLP entity
(`/^[#\-*\x60(\[<>@$%]/`). -/
def badStartChars : List Char := ['#', '-', '*', '\x60', '(', '[', '<', '>', '@', '$', '%']

/-- Characters rejected anywhere in an NLP entity (`/[\x60\[\](){}<>]/`). -/
def badAnyChars : List Char :=
  ['\x60', '[', ']', '(', ')', '\x7b', '\x7d', '<', '>']

/-- The articles-and-auxiliaries filter (`/^(the|a|an|is|are|was|were|be|been|being)$/i`). -/
def ARTICLE_WORDS : List String :=
  ["the", "a", "an", "is", "are", "was", "were", "be", "been", "being"]

/-- `cleanEntity` from extractor.js: trim, minimum length 3, no special
starting character, no brackets, no articles. -/
def cleanEntity (arr : List String) : List String :=
  ((((arr.map (fun t => String.mk (trimChars t.data))).filter
      (fun t => decide (2 < t.length))).filter
      (fun t => !((t.data.head?.map (fun c => badStartChars.contains c)).getD false))).filter
      (fun t => !(t.data.any (fun c => badAnyChars.contains c)))).filter
      (fun t => !(ARTICLE_WORDS.contains (String.mk (t.data.map Char.toLower))))

/-- Maximal-whitespace-run counter; `split(/\s+/).length` is one more. -/
def wsRunCount : Bool → List Char → ℕ
  | _, [] => 0
  | prevWs, c :: rest =>
      if isWsChar c then (if prevWs then 0 else 1) + wsRunCount true rest
      else wsRunCount false rest

/-- `markdown.split(/\s+/).length`. -/
def wordCountJs (markdown : String) : ℕ := wsRunCount false markdown.data + 1

/-- The extractor's result object. -/
structure ExtractResult where
  topics : List String
  people : List String
  organizations : List String
  tickers : List String
  tools : List String
  urls : List String
  headers : List String
  decisions : List String
  source : String
  extractedAt : ℝ
  charCount : ℕ
  wordCount : ℕ

/-- `createEmptyResult(source)`. -/
def createEmptyResult (source : String) (now : ℝ) : ExtractResult :=
  { topics := [], people := [], organizations := [], tickers := [], tools := [],
    urls := [], headers := [], decisions := [], source := source,
    extractedAt := now, charCount := 0, wordCount := 0 }

/-- The compromise NLP pass (topics / people / organizations of the
Markdown-stripped text), abstracted as total functions of the document. -/
structure NlpPass where
  topics : String → List String
  people : String → List String
  organizations : String → List String

/-- `extractEntities(markdown, source)`: empty (falsy) input short-circuits
to the empty result; otherwise every extraction runs and a result object is
assembled. -/
def extractEntitiesE (nlp : NlpPass) (markdown source : String) (now : ℝ) :
    ExtractResult :=
  if markdown = "" then createEmptyResult source now
  else
    { topics := (cleanEntity (nlp.topics markdown)).eraseDups,
      people := (cleanEntity (nlp.people markdown)).eraseDups,
      organizations := (cleanEntity (nlp.organizations markdown)).eraseDups,
      tickers := tickersOf markdown,
      tools := toolsOf markdown,
      urls := urlsOf markdown,
      headers := headersOf markdown,
      decisions := decisionsOf markdown,
      source := source,
      extractedAt := now,
      charCount := markdown.length,
      wordCount := wordCountJs markdown }

/-- `extractEntities` with its error channel made explicit: the source
contains no `throw`, so every input maps to `.ok`. -/
def extractEntitiesRun (nlp : NlpPass) (markdown source : String) (now : ℝ) :
    Except String ExtractResult :=
  .ok (extractEntitiesE nlp markdown source now)

/-- An NLP pass that finds nothing — enough to exercise the guard. -/
def trivialNlp : NlpPass :=
  { topics := fun _ => [], people := fun _ => [], organizations := fun _ => [] }

/-- Counterexample to C5 as stated: on empty input `extractEntities` does
not fail with an `EmptyContent` error — it returns the empty result object
(`createEmptyResult`) through the normal channel. -/
theorem extractEntities_empty_not_error :
    extractEntitiesRun trivialNlp "" "memory/x.md" 3
      = Except.ok (createEmptyResult "memory/x.md" 3) := rfl

/-- Claim C5, amended: `extractEntities` never errors — empty input yields
the empty result object, and every input yields a normal result
(unrecognized text is simply not matched). -/
theorem extractEntities_never_errors (nlp : NlpPass) (markdown source : String)
    (now : ℝ) :
    (markdown = "" →
        extractEntitiesRun nlp markdown source now
          = Except.ok (createEmptyResult source now))
    ∧ ∃ r, extractEntitiesRun nlp markdown source now = Except.ok r := by
  constructor
  · intro h
    subst h
    rfl
  · exact ⟨extractEntitiesE nlp markdown source now, rfl⟩

/-- Witness for the amended C5 at the empty document. -/
theorem extractEntities_never_errors_witness :
    (extractEntitiesRun trivialNlp "" "SOUL.md" 11
        = Except.ok (createEmptyResult "SOUL.md" 11))
    ∧ ∃ r, extractEntitiesRun trivialNlp "" "SOUL.md" 11 = Except.ok r :=
  ⟨(extractEntities_never_errors trivialNlp "" "SOUL.md" 11).1 rfl,
   (extractEntities_never_errors trivialNlp "" "SOUL.md" 11).2⟩

end AbsalomFace
